import Mathlib

/-!
Shallow embedding of the dql query engine (github.com/xushiwei/dql).

The repository provides a lazy query algebra over tree-shaped documents,
with several backends sharing one NodeSet contract:
  * `maps`     — nodes are `map[string]any` dictionaries;
  * `reflects` — nodes are runtime-introspected (`reflect.Value`) values;
  * `xml`/`html` — parsed markup trees.

Go's lazy `iter.Seq` producers over finite documents are embedded as Lean
lists; the short-circuiting consumers (`XGo_Attr`, `XGo_0`, `XGo_1`) are
translated as the recursions their callback loops compute.  Go panics are
embedded as `Except.error`; the `error` values flowing through `NodeSet.Err`
are the inductive `GoErr` below (the two engine sentinels plus an opaque
backend error).
-/

/-- The engine-level error values: `dql.ErrNotFound`, `dql.ErrMultiEntities`,
and opaque backend errors carried unchanged. -/
inductive GoErr where
  | notFound : GoErr
  | multiEntities : GoErr
  | other : String → GoErr
deriving DecidableEq, Repr

namespace Maps

/-- A Go `any` value as stored in a `map[string]any` document: a scalar
(string or integer stand-ins) or a nested `map[string]any`, the latter
modelled as an association list in iteration order. -/
inductive MVal where
  | str : String → MVal
  | int : Int → MVal
  | map : List (String × MVal) → MVal

/-- `maps.Node` is `map[string]any`. -/
abbrev MNode := List (String × MVal)

/-- Go map indexing `node[name]`. -/
def mlookup : MNode → String → Option MVal
  | [], _ => none
  | (k, v) :: rest, name => if k == name then some v else mlookup rest name

/-- `maps.NodeSet`: a produced sequence of (reaching name, node) pairs plus
the error slot. -/
structure MNodeSet where
  data : List (String × MNode)
  err : Option GoErr

/-- `maps.New`: a NodeSet containing the single provided node, reached by
the empty name. -/
def New (doc : MNode) : MNodeSet := ⟨[("", doc)], none⟩

/-- `maps.NodeSet.XGo_Select`: keep the nodes whose reaching name equals
`name`; an errored set is returned unchanged. -/
def XGo_Select (p : MNodeSet) (name : String) : MNodeSet :=
  match p.err with
  | some _ => p
  | none => ⟨p.data.filter (fun kn => kn.1 == name), none⟩

/-- `maps.yieldNode`: the 0-or-1 children contributed by one node under
`Elem`: `node[name]` must exist and be a `map[string]any`. -/
def yieldNode (node : MNode) (name : String) : List (String × MNode) :=
  match mlookup node name with
  | some (.map m) => [(name, m)]
  | _ => []

/-- `maps.NodeSet.XGo_Elem`: per input node, the child named `name` when it
exists and is itself a map. -/
def XGo_Elem (p : MNodeSet) (name : String) : MNodeSet :=
  match p.err with
  | some _ => p
  | none => ⟨p.data.flatMap (fun kn => yieldNode kn.2 name), none⟩

/-- `maps.rangeChildNodes`: all entries of the node whose value is itself a
map, tagged with their keys. -/
def rangeChildNodes : MNode → List (String × MNode)
  | [] => []
  | (k, .map m) :: rest => (k, m) :: rangeChildNodes rest
  | _ :: rest => rangeChildNodes rest

/-- `maps.NodeSet.XGo_Child`: all direct children of all input nodes. -/
def XGo_Child (p : MNodeSet) : MNodeSet :=
  match p.err with
  | some _ => p
  | none => ⟨p.data.flatMap (fun kn => rangeChildNodes kn.2), none⟩

mutual
/-- `maps.rangeAnyNodes`: yield the node itself when its reaching name equals
`name`, then recurse into every map-valued entry. -/
def rangeAnyNodes (key name : String) (node : MNode) : List (String × MNode) :=
  (if key == name then [(key, node)] else []) ++ rangeAnyList name node
termination_by sizeOf node + 1
decreasing_by all_goals (simp_wf; try omega)
/-- The loop of `maps.rangeAnyNodes` over the node's entries. -/
def rangeAnyList (name : String) : List (String × MVal) → List (String × MNode)
  | [] => []
  | (k, .map m) :: rest => rangeAnyNodes k name m ++ rangeAnyList name rest
  | _ :: rest => rangeAnyList name rest
termination_by l => sizeOf l
decreasing_by all_goals (simp_wf; try omega)
end

/-- `maps.NodeSet.XGo_Any`: descendant closure with name filter, seeded with
each input node's own reaching key. -/
def XGo_Any (p : MNodeSet) (name : String) : MNodeSet :=
  match p.err with
  | some _ => p
  | none => ⟨p.data.flatMap (fun kn => rangeAnyNodes kn.1 name kn.2), none⟩

/-- The callback loop of `maps.NodeSet.XGo_Attr`: scan nodes in order, stop
at the first node that has the attribute; `val` stays nil and `err` stays
`ErrNotFound` when no node has it. -/
def attrLoop : List (String × MNode) → String → Option MVal × Option GoErr
  | [], _ => (none, some .notFound)
  | (_, node) :: rest, name =>
    match mlookup node name with
    | some v => (some v, none)
    | none => attrLoop rest name

/-- `maps.NodeSet.XGo_Attr`: the first value of attribute `name` found in the
NodeSet; `("", p.Err)` when the error slot is set. -/
def XGo_Attr (p : MNodeSet) (name : String) : Option MVal × Option GoErr :=
  match p.err with
  | some e => (some (.str ""), some e)
  | none => attrLoop p.data name

/-- `maps.NodeSet.XGo_0`: the first node, or `ErrNotFound` on an empty
sequence; the stored error short-circuits. -/
def XGo_0 (p : MNodeSet) : Except GoErr (String × MNode) :=
  match p.err with
  | some e => .error e
  | none =>
    match p.data with
    | [] => .error .notFound
    | kn :: _ => .ok kn

/-- The callback loop of `maps.NodeSet.XGo_1`: remember the first node, and
overwrite the result with `ErrMultiEntities` as soon as a second one is
produced. -/
def oneLoop : List (String × MNode) → Except GoErr (String × MNode)
  | [] => .error .notFound
  | kn :: rest =>
    match rest with
    | [] => .ok kn
    | _ :: _ => .error .multiEntities

/-- `maps.NodeSet.XGo_1`: exactly-one reduction. -/
def XGo_1 (p : MNodeSet) : Except GoErr (String × MNode) :=
  match p.err with
  | some e => .error e
  | none => oneLoop p.data

mutual
/-- Modelled from the spec (§4.2 Any, §8): the pre-order depth-first
enumeration of a node and its descendants — "that node itself followed by a
full pre-order depth-first traversal of its descendants".  Stated on the
maps document shape to compare with `rangeAnyNodes`. -/
def preorder (key : String) (node : MNode) : List (String × MNode) :=
  (key, node) :: preorderList node
termination_by sizeOf node + 1
decreasing_by all_goals (simp_wf; try omega)
/-- Pre-order traversal of the map-valued entries of a node, in entry
order. -/
def preorderList : List (String × MVal) → List (String × MNode)
  | [] => []
  | (k, .map m) :: rest => preorder k m ++ preorderList rest
  | _ :: rest => preorderList rest
termination_by l => sizeOf l
decreasing_by all_goals (simp_wf; try omega)
end

/-- Argument union of `maps.Source`: the listed source types plus a stand-in
for every other runtime type. -/
inductive SourceArg where
  | mapArg : MNode → SourceArg
  | seqArg : List (String × MNode) → SourceArg
  | setArg : MNodeSet → SourceArg
  | otherArg : SourceArg

/-- `maps.Source`: dispatch on the dynamic type of the argument; the default
branch of the type switch panics (embedded as `Except.error`). -/
def Source : SourceArg → Except String MNodeSet
  | .mapArg doc => .ok (New doc)
  | .seqArg s => .ok ⟨s, none⟩
  | .setArg ns => .ok ns
  | .otherArg => .error "dql/maps.Source: unsupport source type"

end Maps

namespace Reflects

/-- `reflects.capitalize`: uppercase the first character when it is an ASCII
lowercase letter (the Go code tests the first byte against `'a'..'z'`, which
for valid UTF-8 fires exactly on single-byte ASCII lowercase letters). -/
def capitalize (name : String) : String :=
  match name.data with
  | [] => name
  | c :: rest =>
    if 'a' ≤ c ∧ c ≤ 'z' then ⟨Char.ofNat (c.toNat - 'a'.toNat + 'A'.toNat) :: rest⟩
    else name

/-- `reflects.uncapitalize`: lowercase the first character when it is an
ASCII uppercase letter. -/
def uncapitalize (name : String) : String :=
  match name.data with
  | [] => name
  | c :: rest =>
    if 'A' ≤ c ∧ c ≤ 'Z' then ⟨Char.ofNat (c.toNat - 'A'.toNat + 'a'.toNat) :: rest⟩
    else name

/-- The dynamic key type of a Go map, as far as the reflects adapter can
distinguish it: kind `string`, an interface kind (to which a string key is
assignable), or any other kind (to which a string key is not assignable, so
`reflect.Value.MapIndex` with a string key panics). -/
inductive KeyKind where
  | kstr : KeyKind
  | kiface : KeyKind
  | kother : KeyKind
deriving DecidableEq

/-- A `reflect.Value` as the reflects adapter observes it: the zero
(`Invalid`) value, a scalar leaf, a struct with its declared fields in
order, a map tagged with its key kind, or a pointer/interface wrapper
(both are unwrapped exactly one level by the adapter). -/
inductive RVal where
  | invalid : RVal
  | scalarV : String → RVal
  | structV : List (String × RVal) → RVal
  | mapV : KeyKind → List (String × RVal) → RVal
  | ptrV : RVal → RVal

/-- `reflect.Value.IsValid`. -/
def RVal.isValid : RVal → Bool
  | .invalid => false
  | _ => true

/-- `reflects.Node`: a value paired with the name it was reached by. -/
structure RNode where
  name : String
  children : RVal

/-- `reflects.NodeSet`. -/
structure RNodeSet where
  data : List RNode
  err : Option GoErr

/-- `reflects.Root`: a NodeSet holding the one provided node. -/
def Root (doc : RNode) : RNodeSet := ⟨[doc], none⟩

/-- `reflects.New`: a NodeSet holding the provided value under the empty
name. -/
def New (doc : RVal) : RNodeSet := ⟨[⟨"", doc⟩], none⟩

/-- The one-level Pointer/Interface unwrapping both `lookup`, `isNode` and
`rangeChildNodes` start with (`node = node.Elem()`). -/
def unwrapPI : RVal → RVal
  | .ptrV v => v
  | v => v

/-- `reflect.Value.FieldByName` over the declared fields (zero `Value` when
no field has the name). -/
def fieldByName : List (String × RVal) → String → RVal
  | [], _ => .invalid
  | (k, v) :: rest, name => if k == name then v else fieldByName rest name

/-- `reflect.Value.MapIndex` restricted to a string key: assoc lookup for
maps that can accept a string key, zero `Value` when the key is absent. -/
def mapIndex : List (String × RVal) → String → RVal
  | [], _ => .invalid
  | (k, v) :: rest, name => if k == name then v else mapIndex rest name

/-- `reflects.lookup`: unwrap one pointer/interface level, then resolve the
name on a struct (via `FieldByName` of the capitalized name) or on a map
(via `MapIndex` with the verbatim name).  On a map whose key type cannot
accept a string, `MapIndex` panics (`Except.error`); every other shape
yields the zero `Value`. -/
def lookup (node : RVal) (name : String) : Except Unit RVal :=
  match unwrapPI node with
  | .structV fields => .ok (fieldByName fields (capitalize name))
  | .mapV .kstr entries => .ok (mapIndex entries name)
  | .mapV .kiface entries => .ok (mapIndex entries name)
  | .mapV .kother _ => .error ()
  | _ => .ok .invalid

/-- `reflects.isNode`: a value is traversable when, after one unwrapping
level, it is a struct or a map; the zero `Value` is not. -/
def isNode (v : RVal) : Bool :=
  match v with
  | .invalid => false
  | v =>
    match unwrapPI v with
    | .structV _ => true
    | .mapV _ _ => true
    | _ => false

/-- The struct arm of `reflects.rangeChildNodes`: declared fields in order,
keeping only traversable values, reported under uncapitalized names. -/
def childFields : List (String × RVal) → List RNode
  | [] => []
  | (k, v) :: rest =>
    (if isNode v then [⟨uncapitalize k, v⟩] else []) ++ childFields rest

/-- The map arm of `reflects.rangeChildNodes`: entries keeping only
traversable values, reported under their verbatim keys. -/
def childEntries : List (String × RVal) → List RNode
  | [] => []
  | (k, v) :: rest =>
    (if isNode v then [⟨k, v⟩] else []) ++ childEntries rest

/-- `reflects.rangeChildNodes`: children of a value — struct fields or the
entries of a string-keyed map; maps of any other key kind and all other
shapes yield no children. -/
def rangeChildNodes (node : RVal) : List RNode :=
  match unwrapPI node with
  | .structV fields => childFields fields
  | .mapV .kstr entries => childEntries entries
  | _ => []

/-- `reflects.yieldNode`: the 0-or-1 children contributed by one node under
`Elem`; propagates the `lookup` panic. -/
def yieldNode (n : RNode) (name : String) : Except Unit (List RNode) :=
  match lookup n.children name with
  | .error e => .error e
  | .ok v => .ok (if isNode v then [⟨name, v⟩] else [])

/-- The `Elem` loop over the input sequence. -/
def elemLoop : List RNode → String → Except Unit (List RNode)
  | [], _ => .ok []
  | n :: rest, name =>
    match yieldNode n name with
    | .error e => .error e
    | .ok cs =>
      match elemLoop rest name with
      | .error e => .error e
      | .ok more => .ok (cs ++ more)

/-- `reflects.NodeSet.XGo_Select`. -/
def XGo_Select (p : RNodeSet) (name : String) : RNodeSet :=
  match p.err with
  | some _ => p
  | none => ⟨p.data.filter (fun n => n.name == name), none⟩

/-- `reflects.NodeSet.XGo_Elem`; a `.error` result is a panic raised while
the lazily produced sequence is consumed. -/
def XGo_Elem (p : RNodeSet) (name : String) : Except Unit RNodeSet :=
  match p.err with
  | some _ => .ok p
  | none =>
    match elemLoop p.data name with
    | .error e => .error e
    | .ok l => .ok ⟨l, none⟩

/-- `reflects.NodeSet.XGo_Child`. -/
def XGo_Child (p : RNodeSet) : RNodeSet :=
  match p.err with
  | some _ => p
  | none => ⟨p.data.flatMap (fun n => rangeChildNodes n.children), none⟩

mutual
/-- `reflects.rangeAnyNodes`: yield the node when its name matches, then
recurse through `rangeChildNodes` of its value. -/
def rangeAnyNodes (name : String) (n : RNode) : List RNode :=
  (if n.name == name then [n] else []) ++ anyUnder name n.children
termination_by 2 * sizeOf n.children + 2
decreasing_by all_goals (simp_wf; try omega)
/-- Descendant enumeration under one value: dispatch as
`reflects.rangeChildNodes` does. -/
def anyUnder (name : String) (v : RVal) : List RNode :=
  match v with
  | .ptrV w => anyUnderCore name w
  | w => anyUnderCore name w
termination_by 2 * sizeOf v + 1
decreasing_by all_goals (simp_wf; try omega)
/-- The struct/map dispatch of the recursive traversal, after unwrapping. -/
def anyUnderCore (name : String) (v : RVal) : List RNode :=
  match v with
  | .structV fields => anyFields name fields
  | .mapV .kstr entries => anyEntries name entries
  | _ => []
termination_by 2 * sizeOf v
decreasing_by all_goals (simp_wf; try omega)
/-- The struct arm: recurse into each traversable field. -/
def anyFields (name : String) : List (String × RVal) → List RNode
  | [] => []
  | (k, w) :: rest =>
    (if isNode w then rangeAnyNodes name ⟨uncapitalize k, w⟩ else []) ++ anyFields name rest
termination_by l => 2 * sizeOf l
decreasing_by all_goals (simp_wf; try omega)
/-- The map arm: recurse into each traversable entry. -/
def anyEntries (name : String) : List (String × RVal) → List RNode
  | [] => []
  | (k, w) :: rest =>
    (if isNode w then rangeAnyNodes name ⟨k, w⟩ else []) ++ anyEntries name rest
termination_by l => 2 * sizeOf l
decreasing_by all_goals (simp_wf; try omega)
end

/-- `reflects.NodeSet.XGo_Any`. -/
def XGo_Any (p : RNodeSet) (name : String) : RNodeSet :=
  match p.err with
  | some _ => p
  | none => ⟨p.data.flatMap (fun n => rangeAnyNodes name n), none⟩

/-- The callback loop of `reflects.NodeSet.XGo_Attr`: per node, `lookup` the
name (which can panic) and stop at the first valid value. -/
def attrLoop : List RNode → String → Except Unit (Option RVal × Option GoErr)
  | [], _ => .ok (none, some .notFound)
  | n :: rest, name =>
    match lookup n.children name with
    | .error e => .error e
    | .ok v => if v.isValid then .ok (some v, none) else attrLoop rest name

/-- `reflects.NodeSet.XGo_Attr`: first-found attribute extraction;
`("", p.Err)` when the error slot is set. -/
def XGo_Attr (p : RNodeSet) (name : String) : Except Unit (Option RVal × Option GoErr) :=
  match p.err with
  | some e => .ok (some (.scalarV ""), some e)
  | none => attrLoop p.data name

/-- A name whose first character is an ASCII uppercase letter, i.e. a Go
exported field identifier as far as the case-mapping convention sees it. -/
def firstUpper (s : String) : Prop :=
  match s.data with
  | [] => False
  | c :: _ => 'A' ≤ c ∧ c ≤ 'Z'

/-- Argument union of `reflects.Source`: the listed source types plus a
stand-in for every other runtime value, carrying the `reflect.Value` that
`reflect.ValueOf` would produce for it. -/
inductive SourceArg where
  | valArg : RVal → SourceArg
  | nodeArg : RNode → SourceArg
  | seqArg : List RNode → SourceArg
  | setArg : RNodeSet → SourceArg
  | otherArg : RVal → SourceArg

/-- `reflects.Source`: dispatch on the dynamic type of the argument; the
default branch wraps the value via `reflect.ValueOf` instead of panicking,
so the embedding's result type is still `Except` to compare with the other
backends, but no argument reaches `Except.error`. -/
def Source : SourceArg → Except String RNodeSet
  | .valArg v => .ok (New v)
  | .nodeArg n => .ok (Root n)
  | .seqArg s => .ok ⟨s, none⟩
  | .setArg ns => .ok ns
  | .otherArg v => .ok (New v)

end Reflects

namespace Xml

mutual
/-- `xml.Node`: element name (its `Local` part), attributes, and the mixed
child list. -/
inductive XNode where
  | mk : String → List (String × String) → List XItem → XNode
/-- One entry of `xml.Node.Children`: a child element (`*Node`) or character
data. -/
inductive XItem where
  | elem : XNode → XItem
  | chardata : String → XItem
end

/-- The element name of an `xml.Node`. -/
def XNode.name : XNode → String
  | .mk n _ _ => n

/-- The attributes of an `xml.Node`. -/
def XNode.attrs : XNode → List (String × String)
  | .mk _ a _ => a

/-- The children of an `xml.Node`. -/
def XNode.children : XNode → List XItem
  | .mk _ _ c => c

/-- `xml.NodeSet`. -/
structure XNodeSet where
  data : List XNode
  err : Option GoErr

/-- `xml.Root`. -/
def Root (doc : XNode) : XNodeSet := ⟨[doc], none⟩

/-- `xml.yieldNode`: under `Elem`, one input node contributes EVERY child
element whose name matches (the loop yields each match and keeps going). -/
def yieldNode (n : XNode) (name : String) : List XNode :=
  n.children.filterMap (fun c =>
    match c with
    | .elem child => if child.name == name then some child else none
    | .chardata _ => none)

/-- `xml.NodeSet.XGo_Elem`. -/
def XGo_Elem (p : XNodeSet) (name : String) : XNodeSet :=
  match p.err with
  | some _ => p
  | none => ⟨p.data.flatMap (fun n => yieldNode n name), none⟩

/-- Argument union of `xml.Source`: raw input (string URL, bytes or reader)
is represented by the parse outcome the `New` constructor would reach, the
remaining listed types are structural, and `otherArg` stands for every
unlisted runtime type. -/
inductive SourceArg where
  | rawArg : Except GoErr XNode → SourceArg
  | nodeArg : XNode → SourceArg
  | seqArg : List XNode → SourceArg
  | setArg : XNodeSet → SourceArg
  | otherArg : SourceArg

/-- `xml.Source`: dispatch on the dynamic type of the argument; parse
failures land in the error slot, and the default branch of the type switch
panics (embedded as `Except.error`). -/
def Source : SourceArg → Except String XNodeSet
  | .rawArg (.error e) => .ok ⟨[], some e⟩
  | .rawArg (.ok doc) => .ok (Root doc)
  | .nodeArg n => .ok (Root n)
  | .seqArg s => .ok ⟨s, none⟩
  | .setArg ns => .ok ns
  | .otherArg => .error "dql/xml.Source: unsupport source type"

end Xml

/-! ## Helper lemmas -/

namespace Maps

/-- Under `Elem`, one maps node contributes at most one output node. -/
theorem yieldNode_length_le (node : MNode) (name : String) :
    (yieldNode node name).length ≤ 1 := by
  unfold yieldNode
  split <;> simp

/-- The `Elem` output over a maps sequence is no longer than the input. -/
theorem elem_flatMap_length_le (l : List (String × MNode)) (name : String) :
    (l.flatMap (fun kn => yieldNode kn.2 name)).length ≤ l.length := by
  induction l with
  | nil => simp
  | cons hd tl ih =>
    simp only [List.flatMap_cons, List.length_append, List.length_cons]
    have := yieldNode_length_le hd.2 name
    omega

/-- A node with no map-valued entry named `name` contributes nothing to
`Elem`. -/
theorem yieldNode_eq_nil (node : MNode) (name : String)
    (h : ∀ m, mlookup node name ≠ some (.map m)) :
    yieldNode node name = [] := by
  unfold yieldNode
  split
  · rename_i m hm
    exact absurd hm (h m)
  · rfl

/-- `attrLoop` over a sequence none of whose nodes has the attribute. -/
theorem attrLoop_not_found (l : List (String × MNode)) (name : String)
    (h : ∀ kn ∈ l, mlookup kn.2 name = none) :
    attrLoop l name = (none, some .notFound) := by
  induction l with
  | nil => rfl
  | cons hd tl ih =>
    have hhd : mlookup hd.2 name = none := h hd (by simp)
    simp only [attrLoop]
    rw [show (hd.2 : MNode) = hd.2 from rfl] at hhd
    rw [hhd]
    exact ih (fun kn hkn => h kn (by simp [hkn]))

/-- `attrLoop` returns the value of the first node that has the attribute,
no matter how many attribute-less nodes precede it. -/
theorem attrLoop_first_found (l1 l2 : List (String × MNode)) (k name : String)
    (node : MNode) (v : MVal)
    (h1 : ∀ kn ∈ l1, mlookup kn.2 name = none)
    (hv : mlookup node name = some v) :
    attrLoop (l1 ++ (k, node) :: l2) name = (some v, none) := by
  induction l1 with
  | nil =>
    simp only [List.nil_append, attrLoop]
    rw [hv]
  | cons hd tl ih =>
    have hhd : mlookup hd.2 name = none := h1 hd (by simp)
    simp only [List.cons_append, attrLoop]
    rw [hhd]
    exact ih (fun kn hkn => h1 kn (by simp [hkn]))

/-- Filtering distributes over `flatMap`. -/
theorem flatMap_filter {α β : Type} (l : List α) (g : α → List β) (f : β → Bool) :
    (l.flatMap g).filter f = l.flatMap (fun x => (g x).filter f) := by
  induction l with
  | nil => rfl
  | cons hd tl ih => simp [List.flatMap_cons, List.filter_append, ih]

/-- `rangeAnyList` is the name filter of the pre-order descendant
enumeration (strong induction on the document size). -/
theorem rangeAnyList_filter_aux : ∀ N : Nat, ∀ l : List (String × MVal), sizeOf l ≤ N →
    ∀ name, rangeAnyList name l = (preorderList l).filter (fun kn => kn.1 == name) := by
  intro N
  induction N using Nat.strong_induction_on with
  | _ N ih =>
    intro l hsz name
    match l with
    | [] => simp [rangeAnyList, preorderList]
    | (k, v) :: rest =>
      have hszr : sizeOf rest < N := by
        simp only [List.cons.sizeOf_spec, Prod.mk.sizeOf_spec] at hsz
        omega
      have hrest := ih (sizeOf rest) hszr rest le_rfl name
      match v with
      | .map m =>
        have hszm : sizeOf m < N := by
          simp only [List.cons.sizeOf_spec, Prod.mk.sizeOf_spec, MVal.map.sizeOf_spec] at hsz
          omega
        have hm := ih (sizeOf m) hszm m le_rfl name
        rw [rangeAnyList, preorderList, List.filter_append, ← hrest]
        congr 1
        rw [rangeAnyNodes, preorder, List.filter_cons, ← hm]
        by_cases hk : k == name
        · simp [hk]
        · simp [hk]
      | .str s =>
        simp only [rangeAnyList, preorderList]
        exact hrest
      | .int i =>
        simp only [rangeAnyList, preorderList]
        exact hrest

/-- `rangeAnyNodes` yields exactly the name-matching prefix-filtered
pre-order sequence of one node. -/
theorem rangeAnyNodes_filter (key name : String) (node : MNode) :
    rangeAnyNodes key name node = (preorder key node).filter (fun kn => kn.1 == name) := by
  rw [rangeAnyNodes, preorder, List.filter_cons,
    ← rangeAnyList_filter_aux (sizeOf node) node le_rfl name]
  by_cases hk : key == name
  · simp [hk]
  · simp [hk]

end Maps

namespace Reflects

/-- Mapping a valid code point back out of `Char.ofNat`. -/
theorem toNat_ofNat_valid (n : Nat) (h : n < 55296) : (Char.ofNat n).toNat = n := by
  have hv : n.isValidChar := Or.inl h
  simp [Char.ofNat, hv]
  rfl

/-- The case-mapping convention round-trips on exported identifiers:
capitalizing the uncapitalized name restores a name that starts with an
ASCII uppercase letter. -/
theorem capitalize_uncapitalize (s : String) (h : firstUpper s) :
    capitalize (uncapitalize s) = s := by
  obtain ⟨d⟩ := s
  match hd : d with
  | [] => simp [firstUpper] at h
  | c :: rest =>
    simp only [firstUpper] at h
    have ha : ('a' : Char).toNat = 97 := rfl
    have hA : ('A' : Char).toNat = 65 := rfl
    have hc : 65 ≤ c.toNat ∧ c.toNat ≤ 90 := by
      obtain ⟨h1, h2⟩ := h
      simp [Char.le_def, UInt32.le_def, BitVec.le_def] at h1 h2
      exact ⟨h1, h2⟩
    have hmid : (Char.ofNat (c.toNat - 'A'.toNat + 'a'.toNat)).toNat = c.toNat + 32 := by
      rw [ha, hA, toNat_ofNat_valid _ (by omega)]
      omega
    simp only [uncapitalize, if_pos h]
    simp only [capitalize]
    rw [if_pos ?side]
    case side =>
      simp only [Char.le_def, UInt32.le_def, BitVec.le_def]
      show 97 ≤ (Char.ofNat (c.toNat - 'A'.toNat + 'a'.toNat)).toNat ∧
        (Char.ofNat (c.toNat - 'A'.toNat + 'a'.toNat)).toNat ≤ 122
      omega
    show String.mk (Char.ofNat
      ((Char.ofNat (c.toNat - 'A'.toNat + 'a'.toNat)).toNat - 'a'.toNat + 'A'.toNat) :: rest) = _
    rw [hmid, ha, hA]
    have hrt : c.toNat + 32 - 97 + 65 = c.toNat := by omega
    rw [hrt, Char.ofNat_toNat]

/-- Under `Elem`, one reflects node contributes at most one output node. -/
theorem yieldNode_ok_length_le (n : RNode) (name : String) (cs : List RNode)
    (h : yieldNode n name = .ok cs) : cs.length ≤ 1 := by
  unfold yieldNode at h
  split at h
  · exact absurd h (by simp)
  · simp only [Except.ok.injEq] at h
    subst h
    split <;> simp

/-- The `Elem` output over a reflects sequence is no longer than the
input. -/
theorem elemLoop_length_le (l : List RNode) (name : String) (out : List RNode)
    (h : elemLoop l name = .ok out) : out.length ≤ l.length := by
  induction l generalizing out with
  | nil =>
    simp only [elemLoop, Except.ok.injEq] at h
    subst h
    simp
  | cons hd tl ih =>
    simp only [elemLoop] at h
    split at h
    · exact absurd h (by simp)
    · rename_i cs hcs
      split at h
      · exact absurd h (by simp)
      · rename_i more hmore
        simp only [Except.ok.injEq] at h
        subst h
        have h1 := yieldNode_ok_length_le hd name cs hcs
        have h2 := ih more hmore
        simp only [List.length_append, List.length_cons]
        omega

/-- `elemLoop` over nodes that each contribute nothing. -/
theorem elemLoop_nil (l : List RNode) (name : String)
    (h : ∀ n ∈ l, yieldNode n name = .ok []) :
    elemLoop l name = .ok [] := by
  induction l with
  | nil => rfl
  | cons hd tl ih =>
    simp only [elemLoop]
    rw [h hd (by simp), ih (fun n hn => h n (by simp [hn]))]
    rfl

end Reflects

/-! ## Claim theorems -/

/-- Claim C1: for every NodeSet whose error slot is set, each transformation
(Select, Elem, Child, Any) returns a NodeSet carrying the identical error —
in fact the very same NodeSet, producer untouched — and each extraction
(Attr, first and single reduction) returns that same error.  The statement
is quantified over arbitrary `Data`, so none of the operations consults the
producer. -/
theorem errored_selection_short_circuits
    (p : Maps.MNodeSet) (q : Reflects.RNodeSet) (e : GoErr) (name : String)
    (hp : p.err = some e) (hq : q.err = some e) :
    Maps.XGo_Select p name = p ∧ Maps.XGo_Elem p name = p ∧
    Maps.XGo_Child p = p ∧ Maps.XGo_Any p name = p ∧
    Maps.XGo_Attr p name = (some (.str ""), some e) ∧
    Maps.XGo_0 p = .error e ∧ Maps.XGo_1 p = .error e ∧
    Reflects.XGo_Select q name = q ∧ Reflects.XGo_Elem q name = .ok q ∧
    Reflects.XGo_Child q = q ∧ Reflects.XGo_Any q name = q ∧
    Reflects.XGo_Attr q name = .ok (some (.scalarV ""), some e) := by
  refine ⟨?_, ?_, ?_, ?_, ?_, ?_, ?_, ?_, ?_, ?_, ?_, ?_⟩ <;>
    simp [Maps.XGo_Select, Maps.XGo_Elem, Maps.XGo_Child, Maps.XGo_Any, Maps.XGo_Attr,
      Maps.XGo_0, Maps.XGo_1, Reflects.XGo_Select, Reflects.XGo_Elem, Reflects.XGo_Child,
      Reflects.XGo_Any, Reflects.XGo_Attr, hp, hq]

/-- Witness for C1 at a concrete errored NodeSet. -/
theorem errored_selection_short_circuits_witness :
    (⟨[], some (.other "boom")⟩ : Maps.MNodeSet).err = some (.other "boom") ∧
    Maps.XGo_Select ⟨[], some (.other "boom")⟩ "x" = ⟨[], some (.other "boom")⟩ ∧
    Maps.XGo_Attr ⟨[], some (.other "boom")⟩ "x" = (some (.str ""), some (.other "boom")) :=
  have h := errored_selection_short_circuits ⟨[], some (.other "boom")⟩
    ⟨[], some (.other "boom")⟩ (.other "boom") "x" rfl rfl
  ⟨rfl, h.1, h.2.2.2.2.1⟩

/-- Claim C5: for an error-free NodeSet, the single-node reduction `XGo_1`
returns `ErrNotFound` on zero nodes, the node itself with no error on
exactly one node, and `ErrMultiEntities` on two or more nodes. -/
theorem single_reduction_laws (p : Maps.MNodeSet) (hp : p.err = none) :
    (p.data = [] → Maps.XGo_1 p = .error .notFound) ∧
    (∀ kn, p.data = [kn] → Maps.XGo_1 p = .ok kn) ∧
    (∀ a b rest, p.data = a :: b :: rest → Maps.XGo_1 p = .error .multiEntities) := by
  refine ⟨fun h => ?_, fun kn h => ?_, fun a b rest h => ?_⟩ <;>
    simp [Maps.XGo_1, hp, h, Maps.oneLoop]

/-- Witness for C5 at zero-, one- and two-node sequences. -/
theorem single_reduction_laws_witness :
    Maps.XGo_1 ⟨[], none⟩ = .error .notFound ∧
    Maps.XGo_1 ⟨[("", [])], none⟩ = .ok ("", []) ∧
    Maps.XGo_1 ⟨[("", []), ("b", [])], none⟩ = .error .multiEntities :=
  ⟨(single_reduction_laws ⟨[], none⟩ rfl).1 rfl,
   (single_reduction_laws ⟨[("", [])], none⟩ rfl).2.1 ("", []) rfl,
   (single_reduction_laws ⟨[("", []), ("b", [])], none⟩ rfl).2.2 ("", []) ("b", []) [] rfl⟩

/-- Claim C10: `Source` on a value of an unlisted type panics in the maps
and xml backends, while the reflects backend's `Source` never panics — its
default branch wraps any value via runtime reflection into a single-node,
error-free NodeSet. -/
theorem source_type_dispatch :
    Maps.Source .otherArg = .error "dql/maps.Source: unsupport source type" ∧
    Xml.Source .otherArg = .error "dql/xml.Source: unsupport source type" ∧
    (∀ a : Reflects.SourceArg, ∃ ns, Reflects.Source a = .ok ns) ∧
    (∀ v : Reflects.RVal, Reflects.Source (.otherArg v) = .ok ⟨[⟨"", v⟩], none⟩) := by
  refine ⟨rfl, rfl, fun a => ?_, fun v => rfl⟩
  cases a <;> exact ⟨_, rfl⟩

/-- Claim C6, counterexample: in the xml backend a single input node whose
children include two elements named `a` contributes two output nodes to
`Elem("a")`, so the output (length 2) exceeds the 1-per-input bound over the
single-node input. -/
theorem elem_per_input_counterexample :
    (Xml.XGo_Elem (Xml.Root (.mk "r" [] [.elem (.mk "a" [] []), .elem (.mk "a" [] [])])) "a").data.length = 2 ∧
    (Xml.Root (.mk "r" [] [.elem (.mk "a" [] []), .elem (.mk "a" [] [])])).data.length = 1 :=
  ⟨rfl, rfl⟩

/-- Claim C6, amended: the 1-per-input bound holds for the maps and
reflects backends, whose `yieldNode` resolves at most one child by key or
field lookup; the xml (and html) `yieldNode` instead yields every matching
child, so their `Elem` is not bounded by the input length. -/
theorem elem_per_input_bound (p : Maps.MNodeSet) (q : Reflects.RNodeSet) (name : String)
    (hp : p.err = none) (hq : q.err = none) :
    (Maps.XGo_Elem p name).data.length ≤ p.data.length ∧
    ∀ out, Reflects.XGo_Elem q name = .ok out → out.data.length ≤ q.data.length := by
  constructor
  · simp only [Maps.XGo_Elem, hp]
    exact Maps.elem_flatMap_length_le p.data name
  · intro out hout
    simp only [Reflects.XGo_Elem, hq] at hout
    split at hout
    · exact absurd hout (by simp)
    · rename_i l hl
      simp only [Except.ok.injEq] at hout
      subst hout
      exact Reflects.elemLoop_length_le q.data name l hl

/-- Witness for (amended) C6 at concrete error-free NodeSets. -/
theorem elem_per_input_bound_witness :
    (Maps.XGo_Elem (Maps.New [("a", .map [])]) "a").data.length ≤ 1 ∧
    ∀ out, Reflects.XGo_Elem (Reflects.New (.structV [("A", .structV [])])) "a" = .ok out →
      out.data.length ≤ 1 :=
  ⟨(elem_per_input_bound (Maps.New [("a", .map [])])
      (Reflects.New (.structV [("A", .structV [])])) "a" rfl rfl).1,
   (elem_per_input_bound (Maps.New [("a", .map [])])
      (Reflects.New (.structV [("A", .structV [])])) "a" rfl rfl).2⟩

/-- Claim C7, counterexample: in the reflects backend, absence is not
always silent.  A node holding a dictionary whose key type cannot accept a
string has no children at all — `rangeChildNodes` reports none, so in
particular no child named `missing` — yet `Elem("missing")` on it panics
through the unguarded `MapIndex` instead of yielding an empty error-free
NodeSet; and a node holding an interface-keyed dictionary, equally
childless per `Child`, yields a child from `Elem` when the queried key is
present with a traversable value. -/
theorem elem_missing_counterexample :
    Reflects.rangeChildNodes (.mapV .kother [("x", .scalarV "1")]) = [] ∧
    Reflects.XGo_Elem (Reflects.Root ⟨"", .mapV .kother [("x", .scalarV "1")]⟩) "missing" =
      .error () ∧
    Reflects.rangeChildNodes (.mapV .kiface [("missing", .structV [])]) = [] ∧
    Reflects.XGo_Elem (Reflects.Root ⟨"", .mapV .kiface [("missing", .structV [])]⟩) "missing" =
      .ok ⟨[⟨"missing", .structV []⟩], none⟩ :=
  ⟨rfl, rfl, rfl, rfl⟩

/-- Claim C7, amended: for an error-free NodeSet, a node with no child of
the requested name contributes nothing to `Elem(name)` and leaves the error
slot unset — unconditionally in the maps backend, and in the reflects
backend for nodes whose `lookup` of the name returns a non-traversable
value without panicking (structs and string-keyed dictionaries in
particular).  For non-string-keyed dictionaries absence is not silent:
when the key type cannot accept a string, `Elem` panics even though the
node has no children, and on an interface-keyed dictionary whose entry for
the name is traversable, `Elem` yields that entry although `Child` reports
no children. -/
theorem elem_missing_silent_amended (name : String) :
    (∀ p : Maps.MNodeSet, p.err = none →
      (∀ kn ∈ p.data, ∀ m, Maps.mlookup kn.2 name ≠ some (.map m)) →
      Maps.XGo_Elem p name = ⟨[], none⟩) ∧
    (∀ q : Reflects.RNodeSet, q.err = none →
      (∀ n ∈ q.data, ∃ v, Reflects.lookup n.children name = .ok v ∧
        Reflects.isNode v = false) →
      Reflects.XGo_Elem q name = .ok ⟨[], none⟩) ∧
    (∀ rootName entries,
      Reflects.XGo_Elem (Reflects.Root ⟨rootName, .mapV .kother entries⟩) name = .error ()) ∧
    (∀ rootName entries v, Reflects.mapIndex entries name = v → Reflects.isNode v = true →
      Reflects.rangeChildNodes (.mapV .kiface entries) = [] ∧
      Reflects.XGo_Elem (Reflects.Root ⟨rootName, .mapV .kiface entries⟩) name =
        .ok ⟨[⟨name, v⟩], none⟩) := by
  refine ⟨?_, ?_, ?_, ?_⟩
  · intro p hp hnp
    simp only [Maps.XGo_Elem, hp]
    have hdata : p.data.flatMap (fun kn => Maps.yieldNode kn.2 name) = [] := by
      rw [List.flatMap_eq_nil_iff]
      intro kn hkn
      exact Maps.yieldNode_eq_nil kn.2 name (hnp kn hkn)
    rw [hdata]
  · intro q hq hnq
    simp only [Reflects.XGo_Elem, hq]
    have hloop : Reflects.elemLoop q.data name = .ok [] := by
      apply Reflects.elemLoop_nil
      intro n hn
      obtain ⟨v, hv, hnode⟩ := hnq n hn
      simp [Reflects.yieldNode, hv, hnode]
    rw [hloop]
  · intro rootName entries
    simp [Reflects.XGo_Elem, Reflects.Root, Reflects.elemLoop, Reflects.yieldNode,
      Reflects.lookup, Reflects.unwrapPI]
  · intro rootName entries v hv hnv
    refine ⟨rfl, ?_⟩
    simp [Reflects.XGo_Elem, Reflects.Root, Reflects.elemLoop, Reflects.yieldNode,
      Reflects.lookup, Reflects.unwrapPI, hv, hnv]

/-- Witness for (amended) C7: silent absence on a maps document and a
struct node, the panic on an int-keyed dictionary, and the phantom child on
an interface-keyed dictionary. -/
theorem elem_missing_silent_amended_witness :
    Maps.XGo_Elem (Maps.New [("x", .str "1")]) "missing" = ⟨[], none⟩ ∧
    Reflects.XGo_Elem (Reflects.New (.structV [])) "missing" = .ok ⟨[], none⟩ ∧
    Reflects.XGo_Elem (Reflects.Root ⟨"", .mapV .kother [("x", .scalarV "1")]⟩) "missing" =
      .error () ∧
    Reflects.XGo_Elem (Reflects.Root ⟨"", .mapV .kiface [("missing", .structV [])]⟩) "missing" =
      .ok ⟨[⟨"missing", .structV []⟩], none⟩ :=
  have h := elem_missing_silent_amended "missing"
  ⟨h.1 (Maps.New [("x", .str "1")]) rfl
    (by
      intro kn hkn m
      simp only [Maps.New, List.mem_singleton] at hkn
      subst hkn
      simp [Maps.mlookup]),
   h.2.1 (Reflects.New (.structV [])) rfl
    (by
      intro n hn
      simp only [Reflects.New, List.mem_singleton] at hn
      subst hn
      exact ⟨.invalid, rfl, rfl⟩),
   h.2.2.1 "" [("x", .scalarV "1")],
   (h.2.2.2 "" [("missing", .structV [])] (.structV []) rfl rfl).2⟩

/-- Claim C9, counterexample: in the maps backend's single-value `Attr`, a
NodeSet whose first node lacks attribute `a` but whose second node has it
yields that second node's value with no error, not `ErrNotFound` — so
resolution is not restricted to the first node of the input. -/
theorem attr_first_node_counterexample :
    Maps.XGo_Attr ⟨[("", []), ("", [("a", .str "v")])], none⟩ "a" = (some (.str "v"), none) ∧
    (some (Maps.MVal.str "v"), (none : Option GoErr)) ≠
      ((none : Option Maps.MVal), some GoErr.notFound) := by
  constructor
  · rfl
  · simp

/-- Claim C9, amended: the single-value `Attr(name)` scans the input
sequence in order and returns the value from the first node that has the
attribute, no matter how many attribute-less nodes precede it; it returns
`ErrNotFound` exactly when no node in the sequence has the attribute. -/
theorem attr_first_found_semantics (p : Maps.MNodeSet) (name : String) (hp : p.err = none) :
    ((∀ kn ∈ p.data, Maps.mlookup kn.2 name = none) →
      Maps.XGo_Attr p name = (none, some .notFound)) ∧
    (∀ l1 k node v l2, p.data = l1 ++ (k, node) :: l2 →
      (∀ kn ∈ l1, Maps.mlookup kn.2 name = none) →
      Maps.mlookup node name = some v →
      Maps.XGo_Attr p name = (some v, none)) := by
  constructor
  · intro h
    simp only [Maps.XGo_Attr, hp]
    exact Maps.attrLoop_not_found p.data name h
  · intro l1 k node v l2 hdata h1 hv
    simp only [Maps.XGo_Attr, hp, hdata]
    exact Maps.attrLoop_first_found l1 l2 k name node v h1 hv

/-- Witness for (amended) C9: the attribute on the second node is found
even though the first node lacks it, and a wholly absent attribute yields
`ErrNotFound`. -/
theorem attr_first_found_semantics_witness :
    Maps.XGo_Attr ⟨[("", []), ("", [("a", .str "v")])], none⟩ "a" = (some (.str "v"), none) ∧
    Maps.XGo_Attr ⟨[("", [])], none⟩ "a" = (none, some .notFound) :=
  ⟨(attr_first_found_semantics ⟨[("", []), ("", [("a", .str "v")])], none⟩ "a" rfl).2
      [("", [])] "" [("a", .str "v")] (.str "v") [] rfl
      (by
        intro kn hkn
        simp only [List.mem_singleton] at hkn
        subst hkn
        rfl)
      rfl,
   (attr_first_found_semantics ⟨[("", [])], none⟩ "a" rfl).1
      (by
        intro kn hkn
        simp only [List.mem_singleton] at hkn
        subst hkn
        rfl)⟩

/-- Claim C2, counterexample: the empty name is not a traversal wildcard.
Over the document `{a: {}}` — a root plus N = 1 map descendant — `Any("")`
yields only the single node whose reaching name is `""` (the root), not the
N + 1 = 2 pre-order nodes. -/
theorem any_empty_name_counterexample :
    (Maps.XGo_Any (Maps.New [("a", .map [])]) "").data.length = 1 ∧
    (Maps.preorder "" [("a", .map [])]).length = 2 := by
  constructor
  · simp [Maps.XGo_Any, Maps.New, Maps.rangeAnyNodes, Maps.rangeAnyList]
  · simp [Maps.preorder, Maps.preorderList]

/-- Claim C2, amended: for every error-free NodeSet, `Any(name)` yields
exactly the subset of the pre-order depth-first enumeration (each node
itself first, then its descendants) whose reaching name equals `name`, in
the same relative order; the empty name receives no special treatment, so
`Any("")` keeps only nodes whose name is the empty string rather than all
N + 1 pre-order nodes. -/
theorem any_is_preorder_filter (p : Maps.MNodeSet) (name : String) (hp : p.err = none) :
    (∀ key node, Maps.rangeAnyNodes key name node =
      (Maps.preorder key node).filter (fun kn => kn.1 == name)) ∧
    (Maps.XGo_Any p name).data =
      (p.data.flatMap (fun kn => Maps.preorder kn.1 kn.2)).filter (fun kn => kn.1 == name) := by
  refine ⟨fun key node => Maps.rangeAnyNodes_filter key name node, ?_⟩
  simp only [Maps.XGo_Any, hp]
  rw [Maps.flatMap_filter]
  congr 1
  funext kn
  exact Maps.rangeAnyNodes_filter kn.1 name kn.2

/-- Witness for (amended) C2 over the document `{a: {}}`, checking the
filter characterization concretely for a matching and a non-matching
name. -/
theorem any_is_preorder_filter_witness :
    (Maps.XGo_Any (Maps.New [("a", .map [])]) "a").data =
      ((Maps.New [("a", .map [])]).data.flatMap
        (fun kn => Maps.preorder kn.1 kn.2)).filter (fun kn => kn.1 == "a") ∧
    (Maps.XGo_Any (Maps.New [("a", .map [])]) "a").data = [("a", [])] :=
  ⟨(any_is_preorder_filter (Maps.New [("a", .map [])]) "a" rfl).2,
   by simp [Maps.XGo_Any, Maps.New, Maps.rangeAnyNodes, Maps.rangeAnyList]⟩

namespace Reflects

/-- Every node yielded anywhere inside the recursive descendant traversal
passes the `isNode` filter; the only possible exception is the node the
traversal was started from, which `rangeAnyNodes` yields unconditionally
when its name matches.  (Strong induction on the value size, simultaneously
for the five mutually recursive traversal functions.) -/
theorem any_mem_aux (x : RNode) : ∀ N : Nat,
    (∀ (l : List (String × RVal)) (name : String), sizeOf l ≤ N →
      x ∈ anyFields name l → isNode x.children = true) ∧
    (∀ (l : List (String × RVal)) (name : String), sizeOf l ≤ N →
      x ∈ anyEntries name l → isNode x.children = true) ∧
    (∀ (v : RVal) (name : String), sizeOf v ≤ N →
      x ∈ anyUnderCore name v → isNode x.children = true) ∧
    (∀ (v : RVal) (name : String), sizeOf v ≤ N →
      x ∈ anyUnder name v → isNode x.children = true) ∧
    (∀ (n : RNode) (name : String), sizeOf n.children ≤ N →
      x ∈ rangeAnyNodes name n → x = n ∨ isNode x.children = true) := by
  intro N
  induction N using Nat.strong_induction_on with
  | _ N ih =>
    have hfields : ∀ (l : List (String × RVal)) (name : String), sizeOf l ≤ N →
        x ∈ anyFields name l → isNode x.children = true := by
      intro l name hsz hx
      match l with
      | [] => simp [anyFields] at hx
      | (k, w) :: rest =>
        have hszw : sizeOf w < N := by
          simp only [List.cons.sizeOf_spec, Prod.mk.sizeOf_spec] at hsz
          omega
        have hszr : sizeOf rest < N := by
          simp only [List.cons.sizeOf_spec, Prod.mk.sizeOf_spec] at hsz
          omega
        rw [anyFields] at hx
        rcases List.mem_append.mp hx with hx | hx
        · by_cases hw : isNode w
          · rw [if_pos hw] at hx
            rcases (ih (sizeOf w) hszw).2.2.2.2 ⟨uncapitalize k, w⟩ name le_rfl hx with
              heq | hn
            · rw [heq]
              exact hw
            · exact hn
          · rw [if_neg hw] at hx
            simp at hx
        · exact (ih (sizeOf rest) hszr).1 rest name le_rfl hx
    have hentries : ∀ (l : List (String × RVal)) (name : String), sizeOf l ≤ N →
        x ∈ anyEntries name l → isNode x.children = true := by
      intro l name hsz hx
      match l with
      | [] => simp [anyEntries] at hx
      | (k, w) :: rest =>
        have hszw : sizeOf w < N := by
          simp only [List.cons.sizeOf_spec, Prod.mk.sizeOf_spec] at hsz
          omega
        have hszr : sizeOf rest < N := by
          simp only [List.cons.sizeOf_spec, Prod.mk.sizeOf_spec] at hsz
          omega
        rw [anyEntries] at hx
        rcases List.mem_append.mp hx with hx | hx
        · by_cases hw : isNode w
          · rw [if_pos hw] at hx
            rcases (ih (sizeOf w) hszw).2.2.2.2 ⟨k, w⟩ name le_rfl hx with heq | hn
            · rw [heq]
              exact hw
            · exact hn
          · rw [if_neg hw] at hx
            simp at hx
        · exact (ih (sizeOf rest) hszr).2.1 rest name le_rfl hx
    have hcore : ∀ (v : RVal) (name : String), sizeOf v ≤ N →
        x ∈ anyUnderCore name v → isNode x.children = true := by
      intro v name hsz hx
      match v with
      | .structV fields =>
        have hszf : sizeOf fields < N := by
          simp only [RVal.structV.sizeOf_spec] at hsz
          omega
        simp only [anyUnderCore] at hx
        exact (ih (sizeOf fields) hszf).1 fields name le_rfl hx
      | .mapV .kstr entries =>
        have hsze : sizeOf entries < N := by
          simp only [RVal.mapV.sizeOf_spec] at hsz
          omega
        simp only [anyUnderCore] at hx
        exact (ih (sizeOf entries) hsze).2.1 entries name le_rfl hx
      | .mapV .kiface entries => simp [anyUnderCore] at hx
      | .mapV .kother entries => simp [anyUnderCore] at hx
      | .invalid => simp [anyUnderCore] at hx
      | .scalarV s => simp [anyUnderCore] at hx
      | .ptrV w => simp [anyUnderCore] at hx
    have hunder : ∀ (v : RVal) (name : String), sizeOf v ≤ N →
        x ∈ anyUnder name v → isNode x.children = true := by
      intro v name hsz hx
      match v with
      | .ptrV w =>
        have hszw : sizeOf w < N := by
          simp only [RVal.ptrV.sizeOf_spec] at hsz
          omega
        simp only [anyUnder] at hx
        exact (ih (sizeOf w) hszw).2.2.1 w name le_rfl hx
      | .invalid => exact hcore _ name hsz (by simpa [anyUnder] using hx)
      | .scalarV s => exact hcore _ name hsz (by simpa [anyUnder] using hx)
      | .structV fields => exact hcore _ name hsz (by simpa [anyUnder] using hx)
      | .mapV kk entries => exact hcore _ name hsz (by simpa [anyUnder] using hx)
    have hnodes : ∀ (n : RNode) (name : String), sizeOf n.children ≤ N →
        x ∈ rangeAnyNodes name n → x = n ∨ isNode x.children = true := by
      intro n name hsz hx
      rw [rangeAnyNodes] at hx
      rcases List.mem_append.mp hx with hx | hx
      · by_cases hn : n.name == name
        · rw [if_pos hn] at hx
          exact Or.inl (List.mem_singleton.mp hx)
        · rw [if_neg hn] at hx
          simp at hx
      · exact Or.inr (hunder n.children name hsz hx)
    exact ⟨hfields, hentries, hcore, hunder, hnodes⟩

/-- Any node yielded by `rangeAnyNodes` is the start node or passes the
`isNode` filter. -/
theorem rangeAnyNodes_mem (n x : RNode) (name : String)
    (hx : x ∈ rangeAnyNodes name n) : x = n ∨ isNode x.children = true :=
  (any_mem_aux x (sizeOf n.children)).2.2.2.2 n name le_rfl hx

/-- A traversable field is reported by the struct arm of `rangeChildNodes`
under its uncapitalized name. -/
theorem childFields_mem (fields : List (String × RVal)) (id : String) (va : RVal)
    (hmem : (id, va) ∈ fields) (hnode : isNode va = true) :
    (⟨uncapitalize id, va⟩ : RNode) ∈ childFields fields := by
  induction fields with
  | nil => simp at hmem
  | cons hd tl ih =>
    obtain ⟨k, w⟩ := hd
    rw [childFields]
    rcases List.mem_cons.mp hmem with heq | htl
    · obtain ⟨hk, hw⟩ := Prod.mk.injEq .. ▸ heq
      subst hk
      subst hw
      rw [if_pos hnode]
      simp
    · exact List.mem_append_right _ (ih htl)

end Reflects

/-- Claim C3: in the reflects adapter, a struct field declared with an
uppercase-first identifier whose value is traversable is resolved by
`Elem` called with the identifier uncapitalized, and `Child` reports that
child under the uncapitalized field name. -/
theorem struct_field_case_mapping (fields : List (String × Reflects.RVal))
    (id rootName : String) (va : Reflects.RVal)
    (hup : Reflects.firstUpper id)
    (hmem : (id, va) ∈ fields)
    (hlook : Reflects.fieldByName fields id = va)
    (hnode : Reflects.isNode va = true) :
    Reflects.XGo_Elem (Reflects.Root ⟨rootName, .structV fields⟩) (Reflects.uncapitalize id) =
      .ok ⟨[⟨Reflects.uncapitalize id, va⟩], none⟩ ∧
    (⟨Reflects.uncapitalize id, va⟩ : Reflects.RNode) ∈
      (Reflects.XGo_Child (Reflects.Root ⟨rootName, .structV fields⟩)).data := by
  have hyield : Reflects.yieldNode ⟨rootName, .structV fields⟩ (Reflects.uncapitalize id) =
      .ok [⟨Reflects.uncapitalize id, va⟩] := by
    simp only [Reflects.yieldNode, Reflects.lookup, Reflects.unwrapPI,
      Reflects.capitalize_uncapitalize id hup, hlook, hnode, if_true]
  constructor
  · simp [Reflects.XGo_Elem, Reflects.Root, Reflects.elemLoop, hyield]
  · simp only [Reflects.XGo_Child, Reflects.Root, List.flatMap_cons, List.flatMap_nil,
      List.append_nil, Reflects.rangeChildNodes, Reflects.unwrapPI]
    exact Reflects.childFields_mem fields id va hmem hnode

/-- Witness for C3 at the record `struct { Foo struct{} }`. -/
theorem struct_field_case_mapping_witness :
    Reflects.uncapitalize "Foo" = "foo" ∧
    Reflects.XGo_Elem (Reflects.Root ⟨"", .structV [("Foo", .structV [])]⟩)
      (Reflects.uncapitalize "Foo") =
      .ok ⟨[⟨Reflects.uncapitalize "Foo", .structV []⟩], none⟩ ∧
    (⟨Reflects.uncapitalize "Foo", .structV []⟩ : Reflects.RNode) ∈
      (Reflects.XGo_Child (Reflects.Root ⟨"", .structV [("Foo", .structV [])]⟩)).data := by
  refine ⟨?_, struct_field_case_mapping [("Foo", .structV [])] "Foo" "" (.structV [])
    ?_ (by simp) rfl rfl⟩
  · simp [Reflects.uncapitalize]
  · simp only [Reflects.firstUpper]
    decide

/-- Claim C8: a record with one traversable field and one scalar field
yields exactly the traversable field from `Child`; the scalar field's value
never appears as the payload of any `Child` or `Any` output node; and the
scalar value is still retrievable via `Attr` with the case-mapped (declared
name uncapitalized) identifier. -/
theorem record_leaf_filtering (ida idb rootName q sb : String) (va : Reflects.RVal)
    (hne : ida ≠ idb)
    (hupb : Reflects.firstUpper idb)
    (hnodea : Reflects.isNode va = true) :
    Reflects.XGo_Child (Reflects.Root ⟨rootName, .structV [(ida, va), (idb, .scalarV sb)]⟩) =
      ⟨[⟨Reflects.uncapitalize ida, va⟩], none⟩ ∧
    (∀ n ∈ (Reflects.XGo_Any
        (Reflects.Root ⟨rootName, .structV [(ida, va), (idb, .scalarV sb)]⟩) q).data,
      n.children ≠ .scalarV sb) ∧
    Reflects.XGo_Attr (Reflects.Root ⟨rootName, .structV [(ida, va), (idb, .scalarV sb)]⟩)
      (Reflects.uncapitalize idb) = .ok (some (.scalarV sb), none) := by
  have hsc : Reflects.isNode (.scalarV sb) = false := rfl
  refine ⟨?_, ?_, ?_⟩
  · simp [Reflects.XGo_Child, Reflects.Root, Reflects.rangeChildNodes, Reflects.unwrapPI,
      Reflects.childFields, hnodea, hsc]
  · intro n hn
    simp only [Reflects.XGo_Any, Reflects.Root, List.flatMap_cons, List.flatMap_nil,
      List.append_nil] at hn
    rcases Reflects.rangeAnyNodes_mem _ n q hn with heq | hnn
    · subst heq
      simp
    · intro heq
      rw [heq] at hnn
      simp [Reflects.isNode, Reflects.unwrapPI] at hnn
  · have hba : (ida == idb) = false := by
      simp [hne]
    simp [Reflects.XGo_Attr, Reflects.Root, Reflects.attrLoop, Reflects.lookup,
      Reflects.unwrapPI, Reflects.capitalize_uncapitalize idb hupb,
      Reflects.fieldByName, hba, Reflects.RVal.isValid]

/-- Witness for C8 at `struct { Node struct{}; Tag string }`. -/
theorem record_leaf_filtering_witness :
    Reflects.XGo_Child (Reflects.Root ⟨"", .structV [("Node", .structV []), ("Tag", .scalarV "x")]⟩) =
      ⟨[⟨Reflects.uncapitalize "Node", .structV []⟩], none⟩ ∧
    (∀ n ∈ (Reflects.XGo_Any
        (Reflects.Root ⟨"", .structV [("Node", .structV []), ("Tag", .scalarV "x")]⟩) "").data,
      n.children ≠ .scalarV "x") ∧
    Reflects.XGo_Attr (Reflects.Root ⟨"", .structV [("Node", .structV []), ("Tag", .scalarV "x")]⟩)
      (Reflects.uncapitalize "Tag") = .ok (some (.scalarV "x"), none) :=
  record_leaf_filtering "Node" "Tag" "" "" "x" (.structV [])
    (by decide)
    (by
      simp only [Reflects.firstUpper]
      decide)
    rfl

/-- Claim C4, counterexample: on a dictionary whose key type is not string
(an interface-keyed map holding the queried key), `Attr` does not fail with
NotFound — the unguarded `MapIndex` finds the entry and returns its value;
and on a map whose key type cannot accept a string at all, the `MapIndex`
call faults (panics) instead of returning NotFound. -/
theorem nonstring_key_attr_counterexample :
    Reflects.XGo_Attr (Reflects.Root ⟨"", .mapV .kiface [("x", .scalarV "1")]⟩) "x" =
      .ok (some (.scalarV "1"), none) ∧
    Reflects.XGo_Attr (Reflects.Root ⟨"", .mapV .kother [("x", .scalarV "1")]⟩) "x" =
      .error () ∧
    (Except.ok (some (Reflects.RVal.scalarV "1"), (none : Option GoErr)) :
        Except Unit (Option Reflects.RVal × Option GoErr)) ≠
      .ok (none, some .notFound) := by
  refine ⟨rfl, rfl, ?_⟩
  simp

/-- Claim C4, amended: a non-string-keyed dictionary yields no children
from `Child`, but `Attr` on it is not uniformly NotFound: `lookup` runs
`MapIndex` unguarded, so on a map whose key type cannot accept a string the
call panics, while on an interface-keyed map a present key returns its
value — NotFound results only when the lookup produces no valid value. -/
theorem nonstring_key_dictionary (kk : Reflects.KeyKind)
    (entries : List (String × Reflects.RVal)) (name rootName : String)
    (hk : kk ≠ .kstr) :
    Reflects.rangeChildNodes (.mapV kk entries) = [] ∧
    Reflects.XGo_Child (Reflects.Root ⟨rootName, .mapV kk entries⟩) = ⟨[], none⟩ ∧
    Reflects.XGo_Attr (Reflects.Root ⟨rootName, .mapV .kother entries⟩) name = .error () ∧
    (∀ v, Reflects.mapIndex entries name = v → v.isValid = true →
      Reflects.XGo_Attr (Reflects.Root ⟨rootName, .mapV .kiface entries⟩) name =
        .ok (some v, none)) ∧
    (Reflects.mapIndex entries name = .invalid →
      Reflects.XGo_Attr (Reflects.Root ⟨rootName, .mapV .kiface entries⟩) name =
        .ok (none, some .notFound)) := by
  have hchild : Reflects.rangeChildNodes (.mapV kk entries) = [] := by
    cases kk with
    | kstr => exact absurd rfl hk
    | kiface => rfl
    | kother => rfl
  refine ⟨hchild, ?_, rfl, ?_, ?_⟩
  · simp [Reflects.XGo_Child, Reflects.Root, hchild]
  · intro v hv hvalid
    simp [Reflects.XGo_Attr, Reflects.Root, Reflects.attrLoop, Reflects.lookup,
      Reflects.unwrapPI, hv, hvalid]
  · intro hv
    simp [Reflects.XGo_Attr, Reflects.Root, Reflects.attrLoop, Reflects.lookup,
      Reflects.unwrapPI, hv, Reflects.RVal.isValid]

/-- Witness for (amended) C4 at concrete interface- and int-keyed maps. -/
theorem nonstring_key_dictionary_witness :
    Reflects.XGo_Child (Reflects.Root ⟨"", .mapV .kiface [("x", .scalarV "1")]⟩) = ⟨[], none⟩ ∧
    Reflects.XGo_Attr (Reflects.Root ⟨"", .mapV .kother [("x", .scalarV "1")]⟩) "x" = .error () ∧
    Reflects.XGo_Attr (Reflects.Root ⟨"", .mapV .kiface [("x", .scalarV "1")]⟩) "x" =
      .ok (some (.scalarV "1"), none) ∧
    Reflects.XGo_Attr (Reflects.Root ⟨"", .mapV .kiface [("y", .scalarV "1")]⟩) "x" =
      .ok (none, some .notFound) :=
  have h1 := nonstring_key_dictionary .kiface [("x", .scalarV "1")] "x" "" (by decide)
  have h2 := nonstring_key_dictionary .kother [("x", .scalarV "1")] "x" "" (by decide)
  have h3 := nonstring_key_dictionary .kiface [("y", .scalarV "1")] "x" "" (by decide)
  ⟨h1.2.1, h2.2.2.1, h1.2.2.2.1 (.scalarV "1") rfl rfl, h3.2.2.2.2 rfl⟩
